import Mathlib

/-!
Shallow embedding of the ambulance-routing optimization core
(graph preparation, MCF-MILP model construction, result extraction)
of the `Proyecto-Final-Tecnicas-de-Optimizacion` repository.

Sources embedded here:
- `src/data/graph_processor.py` (capacity assignment, interior-node
  filtering, emergency-to-node binding),
- `src/models/optimization_model.py` (multigraph simplification, MILP
  variable/objective/constraint construction, route reconstruction,
  edge-usage computation),
- `config/costos.py` (default cost table and severity-to-ambulance map).

Python floats are modelled as rationals (`ℚ`); all arithmetic in the
embedded code paths is exact on the values the program manipulates.
Randomness (`random.uniform`, `random.sample`) is modelled by passing the
stream of drawn values / the drawn sample explicitly, quantified over all
values the library calls could return.
-/

namespace Ambulancias

/-- Graph nodes are identified by (OSM) integer ids. -/
abbrev Node := Int

/-- Node attribute bag: `y` (latitude) and `x` (longitude), as stored by
OSMnx on every node of the street graph. -/
structure NodeData where
  y : ℚ
  x : ℚ
  deriving DecidableEq, Repr

/-- Edge attribute bag: `length` (meters, set by OSMnx) and `capacity`
(km/h, set by `asignar_capacidades_aleatorias`). -/
structure EdgeData where
  length : ℚ
  capacity : ℚ
  deriving DecidableEq, Repr

/-- A directed graph as an ordered node list and an ordered edge list.
The same representation serves for `nx.MultiDiGraph` (edge list may hold
several entries per ordered pair, in insertion order, mirroring
`edges(keys=True, data=True)` iteration) and for `nx.DiGraph` (at most one
entry per ordered pair). -/
structure Grafo where
  nodes : List (Node × NodeData)
  edges : List (Node × Node × EdgeData)
  deriving DecidableEq, Repr

/-- Ordered pair of endpoints of an edge-list entry. -/
def pairOf (e : Node × Node × EdgeData) : Node × Node :=
  (e.1, e.2.1)

/-- Attribute dictionaries of the parallel edges from `i` to `j`, in edge
insertion order: `multi_grafo[i][j].items()` values, and also the list
whose length is `multi_grafo.number_of_edges(i, j)`. -/
def parallels (es : List (Node × Node × EdgeData)) (i j : Node) : List EdgeData :=
  (es.filter (fun e => pairOf e = (i, j))).map (fun e => e.2.2)

/-- Loop body of `_simplificar_a_digraph`'s best-parallel scan: running
`mejor_capacidad` (second argument) starts at `-1`, `mejor_data` (third
argument) starts at `None`, and each dictionary with strictly larger
`capacity` replaces the incumbent. -/
def mejorAristaAux : List EdgeData → ℚ → Option EdgeData → Option EdgeData
  | [], _, best => best
  | d :: ds, bc, best =>
    if bc < d.capacity then mejorAristaAux ds d.capacity (some d)
    else mejorAristaAux ds bc best

/-- Selection of the maximum-`capacity` parallel edge in
`_simplificar_a_digraph` (`mejor_capacidad = -1; mejor_data = None; ...`).
Returns `none` exactly when no dictionary beats a capacity of `-1`, in
which case the Python code would pass `**None` to `add_edge` and crash. -/
def mejorArista (ds : List EdgeData) : Option EdgeData :=
  mejorAristaAux ds (-1) none

/-- Edge loop of `_simplificar_a_digraph`: iterate
`multi_grafo.edges(keys=True, data=True)` (the `rest` argument), skipping
pairs already in `pares_procesados` (the `seen` argument); on the first
occurrence of a pair, keep the max-capacity parallel when there are
several parallels in the full edge list `esAll`, else keep this edge's
own data. `none` models the crash on `mejor_data = None`. -/
def simplificarEdges (esAll : List (Node × Node × EdgeData)) :
    List (Node × Node × EdgeData) → List (Node × Node) →
    Option (List (Node × Node × EdgeData))
  | [], _ => some []
  | (i, j, d) :: rest, seen =>
    if (i, j) ∈ seen then simplificarEdges esAll rest seen
    else if (parallels esAll i j).length > 1 then
      match mejorArista (parallels esAll i j) with
      | none => none
      | some best =>
        (simplificarEdges esAll rest ((i, j) :: seen)).map (fun out => (i, j, best) :: out)
    else
      (simplificarEdges esAll rest ((i, j) :: seen)).map (fun out => (i, j, d) :: out)

/-- Embedding of `AmbulanceOptimizationModel._simplificar_a_digraph`:
copy all nodes with their attributes, then keep one edge per ordered pair
(the max-capacity parallel). -/
def simplificarADigraph (G : Grafo) : Option Grafo :=
  (simplificarEdges G.edges G.edges []).map (fun es => ⟨G.nodes, es⟩)

/-- Severity level of an emergency (`'leve' | 'media' | 'grave'`). -/
inductive Severidad where
  | leve
  | media
  | grave
  deriving DecidableEq, Repr

/-- Ambulance types keying the `COSTOS` table of `config/costos.py`. -/
inductive TipoAmbulancia where
  | tabLeve
  | tamModerada
  | tamGrave
  deriving DecidableEq, Repr

/-- The `PRIORIDAD_A_AMBULANCIA` mapping of `config/costos.py`. -/
def PRIORIDAD_A_AMBULANCIA : Severidad → TipoAmbulancia
  | .leve => .tabLeve
  | .media => .tamModerada
  | .grave => .tamGrave

/-- Cost fields of a `COSTOS` row used by the optimization model:
`costo_fijo_activacion` and `costo_por_km` (COP). -/
structure FilaCostos where
  costo_fijo_activacion : ℚ
  costo_por_km : ℚ
  deriving DecidableEq, Repr

/-- The cost columns of the `COSTOS` table in `config/costos.py`. -/
def COSTOS : TipoAmbulancia → FilaCostos
  | .tabLeve => ⟨35000, 5585⟩
  | .tamModerada => ⟨60000, 10534⟩
  | .tamGrave => ⟨85000, 20396⟩

/-- A user-supplied cost override row
(`{'costo_fijo': X, 'costo_km': Y}`). -/
structure CostoUsuario where
  costo_fijo : ℚ
  costo_km : ℚ
  deriving DecidableEq, Repr

/-- The optional `costos_usuario` dictionary: `none` models passing
`None`; the inner `Option` models per-severity key presence.  A passed-in
empty dictionary behaves as `some (fun _ => none)`, which the lookups
below treat exactly as `None` (Python tests `if self.costos_usuario and
severidad in self.costos_usuario`). -/
abbrev CostosUsuario := Option (Severidad → Option CostoUsuario)

/-- Fixed-cost lookup of `_definir_funcion_objetivo`: user row when
present, else `COSTOS[PRIORIDAD_A_AMBULANCIA[severidad]]`. -/
def costoFijoDe (cu : CostosUsuario) (sev : Severidad) : ℚ :=
  match cu with
  | some m =>
    match m sev with
    | some fila => fila.costo_fijo
    | none => (COSTOS (PRIORIDAD_A_AMBULANCIA sev)).costo_fijo_activacion
  | none => (COSTOS (PRIORIDAD_A_AMBULANCIA sev)).costo_fijo_activacion

/-- Per-km-cost lookup of `_definir_funcion_objetivo`: user row when
present, else `COSTOS[PRIORIDAD_A_AMBULANCIA[severidad]]`. -/
def costoKmDe (cu : CostosUsuario) (sev : Severidad) : ℚ :=
  match cu with
  | some m =>
    match m sev with
    | some fila => fila.costo_km
    | none => (COSTOS (PRIORIDAD_A_AMBULANCIA sev)).costo_por_km
  | none => (COSTOS (PRIORIDAD_A_AMBULANCIA sev)).costo_por_km

/-- An emergency record as consumed by the model builder: `id`,
`severidad`, `velocidad_requerida` (km/h) and `nodo_destino`. -/
structure Emergencia where
  id : ℤ
  severidad : Severidad
  velocidad_requerida : ℚ
  nodo_destino : Node
  deriving DecidableEq, Repr

/-- Index of a decision variable `x[i, j, k]`. -/
abbrev VarIdx := Node × Node × ℕ

/-- Comparison operator of a linear constraint. -/
inductive Comparador where
  | le
  | eq
  deriving DecidableEq, Repr

/-- Structured constraint name, modelling the f-string names given to
PuLP (`Capacidad_a{i}_{j}`, `Flujo_Origen_k{k}_n{nodo}`,
`Flujo_Destino_k{k}_n{nodo}`, `Flujo_Conservacion_k{k}_n{nodo}`); those
format strings are injective on their integer arguments and have pairwise
distinct prefixes, so the structured form is faithful to the string keys
of PuLP's constraint dictionary. -/
inductive NombreRestriccion where
  | capacidad (i j : Node)
  | flujoOrigen (k : ℕ) (n : Node)
  | flujoDestino (k : ℕ) (n : Node)
  | flujoConservacion (k : ℕ) (n : Node)
  deriving DecidableEq, Repr

/-- A named linear constraint `Σ coef·x cmp rhs`. -/
structure Restriccion where
  nombre : NombreRestriccion
  terminos : List (ℚ × VarIdx)
  cmp : Comparador
  rhs : ℚ
  deriving DecidableEq, Repr

/-- Value of a linear-term list under an assignment of the decision
variables. -/
def evalTerminos (ts : List (ℚ × VarIdx)) (x : VarIdx → ℚ) : ℚ :=
  (ts.map (fun t => t.1 * x t.2)).sum

/-- Satisfaction of one constraint under an assignment. -/
def cumpleRestriccion (c : Restriccion) (x : VarIdx → ℚ) : Prop :=
  match c.cmp with
  | .le => evalTerminos c.terminos x ≤ c.rhs
  | .eq => evalTerminos c.terminos x = c.rhs

/-- Variable indices of the edges entering `nodo`
(`[self.x[i, nodo, k] for (i, j) in self.aristas if j == nodo]`). -/
def entrantes (aristas : List (Node × Node × EdgeData)) (nodo : Node) (k : ℕ) :
    List VarIdx :=
  (aristas.filter (fun e => e.2.1 = nodo)).map (fun e => (e.1, e.2.1, k))

/-- Variable indices of the edges leaving `nodo`
(`[self.x[nodo, j, k] for (i, j) in self.aristas if i == nodo]`). -/
def salientes (aristas : List (Node × Node × EdgeData)) (nodo : Node) (k : ℕ) :
    List VarIdx :=
  (aristas.filter (fun e => e.1 = nodo)).map (fun e => (e.1, e.2.1, k))

/-- Terms of `lpSum(pos) - lpSum(neg)`. -/
def terminosDiferencia (pos neg : List VarIdx) : List (ℚ × VarIdx) :=
  pos.map (fun v => ((1 : ℚ), v)) ++ neg.map (fun v => ((-1 : ℚ), v))

/-- Flow-conservation constraint emitted by
`_restriccion_conservacion_flujo` for flow `k` (with destination `dest`)
at node `nodo`: the origin test comes first, then the destination test,
then the interior case. -/
def restriccionFlujoEn (aristas : List (Node × Node × EdgeData))
    (origen : Node) (k : ℕ) (dest : Node) (nodo : Node) : Restriccion :=
  if nodo = origen then
    ⟨.flujoOrigen k nodo,
      terminosDiferencia (salientes aristas nodo k) (entrantes aristas nodo k), .eq, 1⟩
  else if nodo = dest then
    ⟨.flujoDestino k nodo,
      terminosDiferencia (entrantes aristas nodo k) (salientes aristas nodo k), .eq, 1⟩
  else
    ⟨.flujoConservacion k nodo,
      terminosDiferencia (entrantes aristas nodo k) (salientes aristas nodo k), .eq, 0⟩

/-- Outer loop of `_restriccion_conservacion_flujo` over
`enumerate(self.emergencias)`; for each flow, the inner loop runs over
`self.nodos`. -/
def restriccionesFlujo (aristas : List (Node × Node × EdgeData))
    (nodos : List Node) (origen : Node) :
    List (ℕ × Emergencia) → List Restriccion
  | [] => []
  | (k, em) :: rest =>
    nodos.map (restriccionFlujoEn aristas origen k em.nodo_destino) ++
      restriccionesFlujo aristas nodos origen rest

/-- Embedding of `_restriccion_capacidad_vias`: one constraint per edge
`(i, j)` of `self.aristas`, with terms `velocidad_requerida_k · x[i,j,k]`
over `enumerate(self.emergencias)` and right-hand side
`self.grafo[i][j]['capacity']`. -/
def restriccionesCapacidad (aristas : List (Node × Node × EdgeData))
    (emergencias : List Emergencia) : List Restriccion :=
  aristas.map (fun e =>
    ⟨.capacidad e.1 e.2.1,
      emergencias.enum.map (fun p => (p.2.velocidad_requerida, (e.1, e.2.1, p.1))),
      .le, e.2.2.capacity⟩)

/-- Variable-cost terms of `_definir_funcion_objetivo`: for each
`(k, emerg)` of `enumerate(self.emergencias)` and each edge of
`self.aristas`, the term `(length/1000) · costo_km · x[i,j,k]`. -/
def terminosObjetivo (aristas : List (Node × Node × EdgeData))
    (cu : CostosUsuario) : List (ℕ × Emergencia) → List (ℚ × VarIdx)
  | [] => []
  | (k, em) :: rest =>
    aristas.map (fun e =>
      (e.2.2.length / 1000 * costoKmDe cu em.severidad, (e.1, e.2.1, k))) ++
      terminosObjetivo aristas cu rest

/-- Total fixed cost accumulated by the first loop of
`_definir_funcion_objetivo`. -/
def costoFijoTotal (cu : CostosUsuario) (emergencias : List Emergencia) : ℚ :=
  (emergencias.map (fun em => costoFijoDe cu em.severidad)).sum

/-- The built MILP: objective constant, objective linear terms and the
named constraint list (flow conservation first, then capacities, as in
`_agregar_restricciones`). -/
structure Modelo where
  objetivoConst : ℚ
  objetivoTerminos : List (ℚ × VarIdx)
  restricciones : List Restriccion
  deriving Repr

/-- Embedding of `construir_modelo` applied to the already-simplified
graph `G'`: the objective from `_definir_funcion_objetivo` and the
constraints from `_agregar_restricciones`.  `nodos` and `aristas` are
`list(self.grafo.nodes())` and `list(self.grafo.edges())`. -/
def construirModelo (G' : Grafo) (emergencias : List Emergencia)
    (origen : Node) (cu : CostosUsuario) : Modelo :=
  { objetivoConst := costoFijoTotal cu emergencias
    objetivoTerminos := terminosObjetivo G'.edges cu emergencias.enum
    restricciones :=
      restriccionesFlujo G'.edges (G'.nodes.map (fun n => n.1)) origen emergencias.enum ++
        restriccionesCapacidad G'.edges emergencias }

/-- Objective value of the built model under an assignment. -/
def evalObjetivo (M : Modelo) (x : VarIdx → ℚ) : ℚ :=
  M.objetivoConst + evalTerminos M.objetivoTerminos x

/-- Inner scan of `_reconstruir_ruta_flujo`: the first edge `(i, j)` of
`self.aristas` with `i == nodo_actual` and `x[i, j, k].varValue > 0.5`
(the loop breaks at the first edge satisfying both tests). -/
def aristaElegida (aristas : List (Node × Node × EdgeData)) (x : VarIdx → ℚ)
    (k : ℕ) (cur : Node) : Option (Node × Node × EdgeData) :=
  aristas.find? (fun e => decide (e.1 = cur ∧ (1 : ℚ)/2 < x (e.1, e.2.1, k)))

/-- While loop of `_reconstruir_ruta_flujo`: starting from the partial
route `ruta` whose last node is `cur` (`visitados` coincides with the set
of nodes of `ruta`), follow the chosen outgoing edge until the
destination is reached, no chosen edge leaves the current node (warning,
partial route returned), or the next node was already visited (cycle
warning). Termination: every step appends an edge target not yet in
`ruta`, so the targets of `aristas` outside `ruta` strictly decrease. -/
def reconstruirAux (aristas : List (Node × Node × EdgeData)) (x : VarIdx → ℚ)
    (k : ℕ) (destino : Node) (ruta : List Node) (cur : Node) : List Node :=
  if cur = destino then ruta
  else
    match h : aristaElegida aristas x k cur with
    | none => ruta
    | some e =>
      if hmem : e.2.1 ∈ ruta then ruta
      else reconstruirAux aristas x k destino (ruta ++ [e.2.1]) e.2.1
termination_by ((aristas.map (fun e => e.2.1)).filter (fun n => decide (¬ n ∈ ruta))).length
decreasing_by
  have he : e ∈ aristas := List.mem_of_find?_eq_some h
  have htar : e.2.1 ∈ aristas.map (fun e => e.2.1) := List.mem_map_of_mem _ he
  have hsub :
      ((aristas.map (fun e => e.2.1)).filter
          (fun n => decide (¬ n ∈ ruta ++ [e.2.1]))).Sublist
        ((aristas.map (fun e => e.2.1)).filter (fun n => decide (¬ n ∈ ruta))) := by
    refine List.monotone_filter_right _ ?_
    intro a ha
    simp only [decide_eq_true_eq, List.mem_append, List.mem_singleton] at ha ⊢
    exact fun hc => ha (Or.inl hc)
  refine lt_of_le_of_ne hsub.length_le ?_
  intro hlen
  have heq := hsub.eq_of_length hlen
  have hin : e.2.1 ∈ (aristas.map (fun e => e.2.1)).filter
      (fun n => decide (¬ n ∈ ruta)) := by
    simpa [List.mem_filter, hmem] using htar
  rw [← heq] at hin
  simp [List.mem_filter] at hin

/-- Embedding of `_reconstruir_ruta_flujo`: route reconstruction for flow
`k`, starting at the origin (`ruta = [self.nodo_origen]`,
`visitados = {self.nodo_origen}`). -/
def reconstruirRutaFlujo (aristas : List (Node × Node × EdgeData)) (x : VarIdx → ℚ)
    (k : ℕ) (origen destino : Node) : List Node :=
  reconstruirAux aristas x k destino [origen] origen

/-- Per-edge record of `_calcular_uso_aristas`. -/
structure UsoArista where
  num_flujos : ℕ
  flujos_ids : List ℕ
  carga_total : ℚ
  capacidad : ℚ
  utilizacion : ℚ
  deriving DecidableEq, Repr

/-- Inner loop of `_calcular_uso_aristas` over
`enumerate(self.emergencias)` for the edge `(i, j)`: the flow ids
(`k + 1`, in increasing `k` order) whose variable exceeds `0.5`, and the
sum of their required speeds. -/
def flujosYCarga (x : VarIdx → ℚ) (i j : Node) :
    List (ℕ × Emergencia) → List ℕ × ℚ
  | [] => ([], 0)
  | (k, em) :: rest =>
    let r := flujosYCarga x i j rest
    if (1 : ℚ)/2 < x (i, j, k) then ((k + 1) :: r.1, em.velocidad_requerida + r.2)
    else r

/-- Embedding of `_calcular_uso_aristas`: an ordered map (association
list keyed by the edge pair) holding, for each edge of `self.aristas`
used by at least one flow, the using flows, the total load and the
utilization, where the utilization guards against a non-positive
capacity (`carga_total / capacidad if capacidad > 0 else 0`). -/
def calcularUsoAristas (aristas : List (Node × Node × EdgeData))
    (emergencias : List Emergencia) (x : VarIdx → ℚ) :
    List ((Node × Node) × UsoArista) :=
  match aristas with
  | [] => []
  | (i, j, d) :: rest =>
    let fc := flujosYCarga x i j emergencias.enum
    if fc.1 = [] then calcularUsoAristas rest emergencias x
    else
      ((i, j),
        ⟨fc.1.length, fc.1, fc.2, d.capacity,
          if 0 < d.capacity then fc.2 / d.capacity else 0⟩) ::
        calcularUsoAristas rest emergencias x

/-- Error kinds surfaced by the preparation and build stages (the spec's
`InvalidRange`, `MissingAttribute`, `InsufficientNodes`, `InvalidInput`
taxonomy). -/
inductive ErrorPreparacion where
  | invalidRange
  | missingAttribute
  | insufficientNodes
  | invalidInput
  deriving DecidableEq, Repr

/-- Embedding of `asignar_capacidades_aleatorias` of
`src/data/graph_processor.py`: for each edge `(u, v, key)` of
`grafo.edges(keys=True, data=True)`, in iteration order, set
`capacity` to the next value returned by `random.uniform(c_min, c_max)`
(the `draws` stream, with `draws n` the value drawn for the `n`-th edge).
The source performs no validation of `c_min`/`c_max` and has no failure
path, so the result is always `Except.ok`; the `Except` codomain makes
the spec's claimed `InvalidRange` failure statable. -/
def asignarCapacidadesAleatorias (G : Grafo) (cMin cMax : ℚ) (draws : ℕ → ℚ) :
    Except ErrorPreparacion Grafo :=
  Except.ok
    { G with
      edges := G.edges.enum.map (fun p =>
        (p.2.1, p.2.2.1, { p.2.2.2 with capacity := draws p.1 })) }

/-- Validity of a `random.uniform(c_min, c_max)` draw stream: every drawn
value lies between the two bounds (in either order, as `random.uniform`
guarantees). -/
def drawsValidos (cMin cMax : ℚ) (draws : ℕ → ℚ) : Prop :=
  ∀ n, min cMin cMax ≤ draws n ∧ draws n ≤ max cMin cMax

/-- Distinct predecessors of `nodo` in the multigraph
(`grafo.predecessors(nodo)` iterates each predecessor node once). -/
def predecesores (G : Grafo) (nodo : Node) : List Node :=
  ((G.edges.filter (fun e => e.2.1 = nodo)).map (fun e => e.1)).dedup

/-- Distinct successors of `nodo` in the multigraph
(`grafo.successors(nodo)` iterates each successor node once). -/
def sucesores (G : Grafo) (nodo : Node) : List Node :=
  ((G.edges.filter (fun e => e.1 = nodo)).map (fun e => e.2.1)).dedup

/-- Embedding of `filtrar_nodos_internos`: the nodes with at least
`min_entradas` predecessors and `min_salidas` successors. -/
def filtrarNodosInternos (G : Grafo) (minSalidas minEntradas : ℕ) : List Node :=
  (G.nodes.map (fun n => n.1)).filter (fun nodo =>
    decide (minEntradas ≤ (predecesores G nodo).length ∧
      minSalidas ≤ (sucesores G nodo).length))

/-- Candidate destination pool of `asignar_emergencias_a_nodos`: the
interior nodes (`min_salidas=3, min_entradas=3`), or all nodes when the
interior nodes are fewer than the emergencies. -/
def nodosAUsar (G : Grafo) (emergencias : List Emergencia) : List Node :=
  let internos := filtrarNodosInternos G 3 3
  if internos.length < emergencias.length then G.nodes.map (fun n => n.1)
  else internos

/-- Validity of a `random.sample(poblacion, n)` result: a duplicate-free
selection of `n` elements of the population. -/
def muestraValida (poblacion : List Node) (n : ℕ) (sel : List Node) : Prop :=
  sel.Nodup ∧ (∀ v ∈ sel, v ∈ poblacion) ∧ sel.length = n

/-- Embedding of `asignar_emergencias_a_nodos`: pair each emergency with
the node drawn for it (`zip(emergencias, nodos_seleccionados)`) and
record it as `nodo_destino`.  `sel` stands for
`random.sample(nodos_a_usar, len(emergencias))`; note that the function
receives no origin node and excludes nothing from the pool. -/
def asignarEmergenciasANodos (emergencias : List Emergencia) (sel : List Node) :
    List Emergencia :=
  (emergencias.zip sel).map (fun p => { p.1 with nodo_destino := p.2 })

/-! Lemmas about the best-parallel scan of `_simplificar_a_digraph`. -/

theorem mejorAristaAux_mem {ds : List EdgeData} {bc : ℚ} {best : Option EdgeData}
    {d' : EdgeData} (h : mejorAristaAux ds bc best = some d') :
    d' ∈ ds ∨ best = some d' := by
  induction ds generalizing bc best with
  | nil => exact Or.inr h
  | cons d ds ih =>
    rw [mejorAristaAux] at h
    by_cases hlt : bc < d.capacity
    · rw [if_pos hlt] at h
      rcases ih h with hmem | heq
      · exact Or.inl (List.mem_cons_of_mem _ hmem)
      · exact Or.inl (by rw [← Option.some_inj.mp heq]; exact List.mem_cons_self d ds)
    · rw [if_neg hlt] at h
      rcases ih h with hmem | heq
      · exact Or.inl (List.mem_cons_of_mem _ hmem)
      · exact Or.inr heq

theorem mejorAristaAux_max {ds : List EdgeData} {bc : ℚ} {best : Option EdgeData}
    {d' : EdgeData} (hb : ∀ e, best = some e → e.capacity = bc)
    (h : mejorAristaAux ds bc best = some d') :
    (∀ d ∈ ds, d.capacity ≤ d'.capacity) ∧ bc ≤ d'.capacity := by
  induction ds generalizing bc best with
  | nil =>
    refine ⟨by simp, ?_⟩
    have := hb d' h
    exact le_of_eq this.symm
  | cons d ds ih =>
    rw [mejorAristaAux] at h
    by_cases hlt : bc < d.capacity
    · rw [if_pos hlt] at h
      have hrec := ih (fun e he => by cases he; rfl) h
      refine ⟨?_, le_of_lt (lt_of_lt_of_le hlt hrec.2)⟩
      intro a ha
      rcases List.mem_cons.mp ha with rfl | ha
      · exact hrec.2
      · exact hrec.1 a ha
    · rw [if_neg hlt] at h
      have hrec := ih hb h
      refine ⟨?_, hrec.2⟩
      intro a ha
      rcases List.mem_cons.mp ha with rfl | ha
      · exact le_trans (not_lt.mp hlt) hrec.2
      · exact hrec.1 a ha

theorem mejorAristaAux_eq_none {ds : List EdgeData} {bc : ℚ} {best : Option EdgeData}
    (h : mejorAristaAux ds bc best = none) :
    best = none ∧ ∀ d ∈ ds, d.capacity ≤ bc := by
  induction ds generalizing bc best with
  | nil => exact ⟨h, by simp⟩
  | cons d ds ih =>
    rw [mejorAristaAux] at h
    by_cases hlt : bc < d.capacity
    · rw [if_pos hlt] at h
      exact absurd (ih h).1 (by simp)
    · rw [if_neg hlt] at h
      have hrec := ih h
      refine ⟨hrec.1, ?_⟩
      intro a ha
      rcases List.mem_cons.mp ha with rfl | ha
      · exact not_lt.mp hlt
      · exact hrec.2 a ha

theorem mejorArista_spec {ds : List EdgeData} {d' : EdgeData}
    (h : mejorArista ds = some d') :
    d' ∈ ds ∧ ∀ d ∈ ds, d.capacity ≤ d'.capacity := by
  refine ⟨?_, (mejorAristaAux_max (by simp) h).1⟩
  rcases mejorAristaAux_mem h with hmem | heq
  · exact hmem
  · simp at heq

theorem mejorArista_isSome {ds : List EdgeData}
    (hpos : ∀ d ∈ ds, 0 ≤ d.capacity) (hne : ds ≠ []) :
    ∃ d', mejorArista ds = some d' := by
  cases h : mejorArista ds with
  | some d' => exact ⟨d', rfl⟩
  | none =>
    have hall := (mejorAristaAux_eq_none h).2
    rcases List.exists_mem_of_ne_nil ds hne with ⟨d, hd⟩
    have h1 := hpos d hd
    have h2 := hall d hd
    linarith

theorem mem_parallels {es : List (Node × Node × EdgeData)} {i j : Node}
    {d : EdgeData} : d ∈ parallels es i j ↔ (i, j, d) ∈ es := by
  unfold parallels
  simp only [List.mem_map, List.mem_filter, decide_eq_true_eq]
  constructor
  · rintro ⟨⟨a, b, c⟩, ⟨hmem, hpair⟩, hdata⟩
    simp only [pairOf] at hpair
    obtain ⟨rfl, rfl⟩ := Prod.mk.injEq .. ▸ Prod.ext_iff.mp hpair
    simpa using hdata ▸ hmem
  · intro hmem
    exact ⟨(i, j, d), ⟨hmem, rfl⟩, rfl⟩

theorem parallels_eq_single {es : List (Node × Node × EdgeData)} {i j : Node}
    {d : EdgeData} (h1 : (parallels es i j).length ≤ 1) (hm : (i, j, d) ∈ es) :
    parallels es i j = [d] := by
  have hdp : d ∈ parallels es i j := mem_parallels.mpr hm
  cases hp : parallels es i j with
  | nil => rw [hp] at hdp; exact absurd hdp (by simp)
  | cons z zs =>
    rw [hp] at h1 hdp
    cases zs with
    | cons w ws => simp [List.length_cons] at h1
    | nil =>
      have : d = z := by simpa using hdp
      rw [this]

/-! Lemmas about the edge loop of `_simplificar_a_digraph`. -/

theorem simplificarEdges_total {esAll rest : List (Node × Node × EdgeData)}
    {seen : List (Node × Node)}
    (hpos : ∀ e ∈ esAll, 0 ≤ e.2.2.capacity) (hsub : ∀ e ∈ rest, e ∈ esAll) :
    ∃ out, simplificarEdges esAll rest seen = some out := by
  induction rest generalizing seen with
  | nil => exact ⟨[], rfl⟩
  | cons e rest ih =>
    obtain ⟨i, j, d⟩ := e
    have hsub' : ∀ e ∈ rest, e ∈ esAll := fun e he => hsub e (List.mem_cons_of_mem _ he)
    rw [simplificarEdges]
    by_cases hseen : (i, j) ∈ seen
    · rw [if_pos hseen]
      exact ih hsub'
    · rw [if_neg hseen]
      by_cases hlen : (parallels esAll i j).length > 1
      · rw [if_pos hlen]
        have hposp : ∀ x ∈ parallels esAll i j, 0 ≤ x.capacity := by
          intro x hx
          exact hpos (i, j, x) (mem_parallels.mp hx)
        have hne : parallels esAll i j ≠ [] := by
          intro hnil
          rw [hnil] at hlen
          simp at hlen
        obtain ⟨best, hbest⟩ := mejorArista_isSome hposp hne
        rw [hbest]
        obtain ⟨out, hout⟩ := @ih ((i, j) :: seen) hsub'
        exact ⟨(i, j, best) :: out, by rw [hout]; rfl⟩
      · rw [if_neg hlen]
        obtain ⟨out, hout⟩ := @ih ((i, j) :: seen) hsub'
        exact ⟨(i, j, d) :: out, by rw [hout]; rfl⟩

theorem simplificarEdges_countP {esAll rest : List (Node × Node × EdgeData)}
    {seen : List (Node × Node)} {out : List (Node × Node × EdgeData)}
    (h : simplificarEdges esAll rest seen = some out) (u v : Node) :
    out.countP (fun e => decide (pairOf e = (u, v))) =
      if (u, v) ∈ seen then 0
      else if rest.any (fun e => decide (pairOf e = (u, v))) then 1 else 0 := by
  induction rest generalizing seen out with
  | nil =>
    rw [simplificarEdges] at h
    cases Option.some_inj.mp h
    simp
  | cons e rest ih =>
    obtain ⟨i, j, d⟩ := e
    rw [simplificarEdges] at h
    by_cases hseen : (i, j) ∈ seen
    · rw [if_pos hseen] at h
      rw [ih h]
      by_cases huv : (u, v) = (i, j)
      · cases huv
        simp [hseen]
      · have hnd : (decide (pairOf ((i, j, d) : Node × Node × EdgeData) = (u, v))) = false := by
          rw [show pairOf ((i, j, d) : Node × Node × EdgeData) = (i, j) from rfl,
            decide_eq_false_iff_not]
          exact fun hc => huv hc.symm
        rw [List.any_cons, hnd, Bool.false_or]
    · rw [if_neg hseen] at h
      have key : ∀ b : EdgeData, ∀ out',
          simplificarEdges esAll rest ((i, j) :: seen) = some out' →
          out = (i, j, b) :: out' →
          out.countP (fun e => decide (pairOf e = (u, v))) =
            if (u, v) ∈ seen then 0
            else if ((i, j, d) :: rest).any (fun e => decide (pairOf e = (u, v))) then 1
              else 0 := by
        intro b out' hout' hout
        subst hout
        rw [List.countP_cons, ih hout']
        by_cases huv : (u, v) = (i, j)
        · cases huv
          simp [pairOf, hseen]
        · have hnb : (decide (pairOf ((i, j, b) : Node × Node × EdgeData) = (u, v))) = false := by
            rw [show pairOf ((i, j, b) : Node × Node × EdgeData) = (i, j) from rfl,
              decide_eq_false_iff_not]
            exact fun hc => huv hc.symm
          have hnd : (decide (pairOf ((i, j, d) : Node × Node × EdgeData) = (u, v))) = false := by
            rw [show pairOf ((i, j, d) : Node × Node × EdgeData) = (i, j) from rfl,
              decide_eq_false_iff_not]
            exact fun hc => huv hc.symm
          rw [hnb, List.any_cons, hnd, Bool.false_or]
          simp [List.mem_cons, huv]
      by_cases hlen : (parallels esAll i j).length > 1
      · rw [if_pos hlen] at h
        cases hbest : mejorArista (parallels esAll i j) with
        | none => rw [hbest] at h; exact absurd h (by simp)
        | some best =>
          rw [hbest] at h
          cases hrec : simplificarEdges esAll rest ((i, j) :: seen) with
          | none => rw [hrec] at h; exact absurd h (by simp)
          | some out' =>
            rw [hrec] at h
            exact key best out' hrec (Option.some_inj.mp h).symm
      · rw [if_neg hlen] at h
        cases hrec : simplificarEdges esAll rest ((i, j) :: seen) with
        | none => rw [hrec] at h; exact absurd h (by simp)
        | some out' =>
          rw [hrec] at h
          exact key d out' hrec (Option.some_inj.mp h).symm

theorem simplificarEdges_data {esAll rest : List (Node × Node × EdgeData)}
    {seen : List (Node × Node)} {out : List (Node × Node × EdgeData)}
    (hsub : ∀ e ∈ rest, e ∈ esAll)
    (h : simplificarEdges esAll rest seen = some out) :
    ∀ u v d', (u, v, d') ∈ out →
      (u, v, d') ∈ esAll ∧ ∀ d ∈ parallels esAll u v, d.capacity ≤ d'.capacity := by
  induction rest generalizing seen out with
  | nil =>
    rw [simplificarEdges] at h
    cases Option.some_inj.mp h
    simp
  | cons e rest ih =>
    obtain ⟨i, j, d⟩ := e
    have hsub' : ∀ e ∈ rest, e ∈ esAll := fun e he => hsub e (List.mem_cons_of_mem _ he)
    rw [simplificarEdges] at h
    by_cases hseen : (i, j) ∈ seen
    · rw [if_pos hseen] at h
      exact ih hsub' h
    · rw [if_neg hseen] at h
      by_cases hlen : (parallels esAll i j).length > 1
      · rw [if_pos hlen] at h
        cases hbest : mejorArista (parallels esAll i j) with
        | none => rw [hbest] at h; exact absurd h (by simp)
        | some best =>
          rw [hbest] at h
          cases hrec : simplificarEdges esAll rest ((i, j) :: seen) with
          | none => rw [hrec] at h; exact absurd h (by simp)
          | some out' =>
            rw [hrec] at h
            cases Option.some_inj.mp h
            intro u v d' hd'
            rcases List.mem_cons.mp hd' with hd' | hd'
            · obtain ⟨rfl, rfl, rfl⟩ : u = i ∧ v = j ∧ d' = best := by
                simpa [Prod.ext_iff] using hd'
              obtain ⟨hbmem, hbmax⟩ := mejorArista_spec hbest
              exact ⟨mem_parallels.mp hbmem, hbmax⟩
            · exact ih hsub' hrec u v d' hd'
      · rw [if_neg hlen] at h
        cases hrec : simplificarEdges esAll rest ((i, j) :: seen) with
        | none => rw [hrec] at h; exact absurd h (by simp)
        | some out' =>
          rw [hrec] at h
          cases Option.some_inj.mp h
          intro u v d' hd'
          rcases List.mem_cons.mp hd' with hd' | hd'
          · have hmem : ((i, j, d) : Node × Node × EdgeData) ∈ esAll :=
              hsub _ (List.mem_cons_self _ _)
            obtain ⟨rfl, rfl, hdd⟩ : u = i ∧ v = j ∧ d' = d := by
              simpa [Prod.ext_iff] using hd'
            subst hdd
            refine ⟨hmem, ?_⟩
            intro a ha
            rw [parallels_eq_single (not_lt.mp hlen) hmem] at ha
            have haeq : a = d' := by simpa using ha
            rw [haeq]
          · exact ih hsub' hrec u v d' hd'

theorem parallels_cons (a b : Node) (c : EdgeData)
    (es : List (Node × Node × EdgeData)) (i j : Node) :
    parallels ((a, b, c) :: es) i j =
      if (a, b) = (i, j) then c :: parallels es i j else parallels es i j := by
  by_cases hab : (a, b) = (i, j)
  · obtain ⟨rfl, rfl⟩ : a = i ∧ b = j := by simpa [Prod.ext_iff] using hab
    simp [parallels, pairOf, List.filter_cons]
  · have h1 : ¬(a = i ∧ b = j) := by
      intro hc
      exact hab (by simp [Prod.ext_iff, hc.1, hc.2])
    simp [parallels, pairOf, List.filter_cons, hab, h1]

theorem parallels_single_of_nodup {es : List (Node × Node × EdgeData)}
    {i j : Node} {d : EdgeData} (hnd : (es.map pairOf).Nodup)
    (hm : (i, j, d) ∈ es) : parallels es i j = [d] := by
  induction es with
  | nil => exact absurd hm (by simp)
  | cons e es ih =>
    obtain ⟨a, b, c⟩ := e
    rw [List.map_cons, List.nodup_cons] at hnd
    rw [parallels_cons]
    rcases List.mem_cons.mp hm with heq | hmem
    · obtain ⟨rfl, rfl, rfl⟩ : i = a ∧ j = b ∧ d = c := by
        simpa [Prod.ext_iff] using heq
      rw [if_pos rfl]
      have hnil : parallels es i j = [] := by
        cases hp : parallels es i j with
        | nil => rfl
        | cons z zs =>
          have hz : z ∈ parallels es i j := by rw [hp]; exact List.mem_cons_self _ _
          have hzm : (i, j, z) ∈ es := mem_parallels.mp hz
          have hpm : (i, j) ∈ es.map pairOf :=
            List.mem_map.mpr ⟨(i, j, z), hzm, rfl⟩
          exact absurd hpm (by simpa [pairOf] using hnd.1)
      rw [hnil]
    · have hne : (a, b) ≠ (i, j) := by
        intro hc
        obtain ⟨rfl, rfl⟩ : a = i ∧ b = j := by simpa [Prod.ext_iff] using hc
        have hpm : (a, b) ∈ es.map pairOf :=
          List.mem_map.mpr ⟨(a, b, d), hmem, rfl⟩
        exact absurd hpm (by simpa [pairOf] using hnd.1)
      rw [if_neg hne]
      exact ih hnd.2 hmem

theorem simplificarEdges_simple {esAll rest : List (Node × Node × EdgeData)}
    {seen : List (Node × Node)}
    (hnd : (esAll.map pairOf).Nodup) (hsub : ∀ e ∈ rest, e ∈ esAll)
    (hdisj : ∀ e ∈ rest, pairOf e ∉ seen) (hrnd : (rest.map pairOf).Nodup) :
    simplificarEdges esAll rest seen = some rest := by
  induction rest generalizing seen with
  | nil => rw [simplificarEdges]
  | cons e rest ih =>
    obtain ⟨i, j, d⟩ := e
    rw [List.map_cons, List.nodup_cons] at hrnd
    rw [simplificarEdges]
    have hmem : ((i, j, d) : Node × Node × EdgeData) ∈ esAll :=
      hsub _ (List.mem_cons_self _ _)
    have hps : parallels esAll i j = [d] := parallels_single_of_nodup hnd hmem
    have hns : ((i, j) : Node × Node) ∉ seen := hdisj _ (List.mem_cons_self _ _)
    rw [if_neg hns, hps]
    rw [if_neg (by simp)]
    have hdisj' : ∀ e ∈ rest, pairOf e ∉ ((i, j) :: seen) := by
      intro e he
      rw [List.mem_cons]
      rintro (hc | hc)
      · refine hrnd.1 ?_
        rw [show pairOf ((i, j, d) : Node × Node × EdgeData) = (i, j) from rfl, ← hc]
        exact List.mem_map.mpr ⟨e, he, rfl⟩
      · exact hdisj e (List.mem_cons_of_mem _ he) hc
    rw [ih (fun e he => hsub e (List.mem_cons_of_mem _ he)) hdisj' hrnd.2]
    rfl

/-- C4: `_simplificar_a_digraph` succeeds on any multigraph whose edges
all carry a non-negative `capacity` (the prepared graph's capacities are
positive), keeps every node with its attributes, and for every ordered
pair `(u, v)` having at least one edge in the input leaves exactly one
edge from `u` to `v`, whose attribute record is that of an input parallel
edge from `u` to `v` of maximal `capacity`. -/
theorem c4_simplificar_mantiene_mejor_paralela (G : Grafo)
    (hpos : ∀ e ∈ G.edges, 0 ≤ e.2.2.capacity) :
    ∃ G', simplificarADigraph G = some G' ∧ G'.nodes = G.nodes ∧
      ∀ u v : Node,
        (G.edges.any (fun e => decide (pairOf e = (u, v)))) = true →
        G'.edges.countP (fun e => decide (pairOf e = (u, v))) = 1 ∧
        ∀ d', (u, v, d') ∈ G'.edges →
          (u, v, d') ∈ G.edges ∧
            ∀ d ∈ parallels G.edges u v, d.capacity ≤ d'.capacity := by
  obtain ⟨out, hout⟩ :=
    @simplificarEdges_total G.edges G.edges [] hpos (fun e he => he)
  refine ⟨⟨G.nodes, out⟩, ?_, rfl, ?_⟩
  · unfold simplificarADigraph
    rw [hout]
    rfl
  · intro u v hany
    refine ⟨?_, ?_⟩
    · rw [simplificarEdges_countP hout u v]
      simp [hany]
    · intro d' hd'
      exact simplificarEdges_data (fun e he => he) hout u v d' hd'

/-- Witness for C4 on a concrete multigraph with two parallel edges from
`0` to `1` (capacities 40 and 70) and one edge from `1` to `0`. -/
theorem c4_witness :
    ∃ G', simplificarADigraph
        ⟨[(0, ⟨0, 0⟩), (1, ⟨0, 0⟩)],
          [(0, 1, ⟨100, 40⟩), (0, 1, ⟨200, 70⟩), (1, 0, ⟨50, 30⟩)]⟩ = some G' ∧
      G'.nodes = [(0, ⟨0, 0⟩), (1, ⟨0, 0⟩)] ∧
      ∀ u v : Node,
        (([(0, 1, ⟨100, 40⟩), (0, 1, ⟨200, 70⟩),
            (1, 0, ⟨50, 30⟩)] : List (Node × Node × EdgeData)).any
          (fun e => decide (pairOf e = (u, v)))) = true →
        G'.edges.countP (fun e => decide (pairOf e = (u, v))) = 1 ∧
        ∀ d', (u, v, d') ∈ G'.edges →
          (u, v, d') ∈ [(0, 1, ⟨100, 40⟩), (0, 1, ⟨200, 70⟩), (1, 0, ⟨50, 30⟩)] ∧
            ∀ d ∈ parallels [(0, 1, ⟨100, 40⟩), (0, 1, ⟨200, 70⟩), (1, 0, ⟨50, 30⟩)] u v,
              d.capacity ≤ d'.capacity :=
  c4_simplificar_mantiene_mejor_paralela _ (by decide)

/-- C9: `_simplificar_a_digraph` is the identity on a graph that is
already simple (at most one edge per ordered pair): it returns the very
same node list and edge list, attributes included. -/
theorem c9_simplificar_identidad_en_simple (G : Grafo)
    (hsimple : (G.edges.map pairOf).Nodup) :
    simplificarADigraph G = some G := by
  unfold simplificarADigraph
  rw [simplificarEdges_simple hsimple (fun e he => he)
    (fun e _ => List.not_mem_nil (pairOf e)) hsimple]
  rfl

/-- Witness for C9 on a concrete simple two-node graph. -/
theorem c9_witness :
    simplificarADigraph
        ⟨[(0, ⟨0, 0⟩), (1, ⟨0, 0⟩)], [(0, 1, ⟨100, 40⟩), (1, 0, ⟨50, 30⟩)]⟩ =
      some ⟨[(0, ⟨0, 0⟩), (1, ⟨0, 0⟩)], [(0, 1, ⟨100, 40⟩), (1, 0, ⟨50, 30⟩)]⟩ :=
  c9_simplificar_identidad_en_simple _ (by decide)

/-! Lemmas about the constraint lists of the MILP builder. -/

theorem evalTerminos_append (a b : List (ℚ × VarIdx)) (x : VarIdx → ℚ) :
    evalTerminos (a ++ b) x = evalTerminos a x + evalTerminos b x := by
  simp [evalTerminos]

theorem sum_map_neg (l : List VarIdx) (x : VarIdx → ℚ) :
    (l.map (fun v => -x v)).sum = -((l.map x).sum) := by
  induction l with
  | nil => simp
  | cons a l ih => simp [ih]; ring

theorem evalTerminos_diferencia (pos neg : List VarIdx) (x : VarIdx → ℚ) :
    evalTerminos (terminosDiferencia pos neg) x =
      (pos.map x).sum - (neg.map x).sum := by
  unfold terminosDiferencia
  rw [evalTerminos_append]
  unfold evalTerminos
  rw [List.map_map, List.map_map]
  have h1 : ((fun t : ℚ × VarIdx => t.1 * x t.2) ∘ fun v => ((1 : ℚ), v)) =
      fun v => x v := by
    funext v
    simp
  have h2 : ((fun t : ℚ × VarIdx => t.1 * x t.2) ∘ fun v => ((-1 : ℚ), v)) =
      fun v => -x v := by
    funext v
    simp
  rw [h1, h2, sum_map_neg]
  ring

theorem restriccionesCapacidad_cons (a b : Node) (c : EdgeData)
    (aristas : List (Node × Node × EdgeData)) (emergencias : List Emergencia) :
    restriccionesCapacidad ((a, b, c) :: aristas) emergencias =
      ⟨.capacidad a b,
        emergencias.enum.map (fun p => (p.2.velocidad_requerida, (a, b, p.1))),
        .le, c.capacity⟩ :: restriccionesCapacidad aristas emergencias := rfl

theorem restriccionesCapacidad_filter_nil {aristas : List (Node × Node × EdgeData)}
    {emergencias : List Emergencia} {i j : Node}
    (h : ((i, j) : Node × Node) ∉ aristas.map pairOf) :
    (restriccionesCapacidad aristas emergencias).filter
      (fun c => decide (c.nombre = .capacidad i j)) = [] := by
  induction aristas with
  | nil => rfl
  | cons e aristas ih =>
    obtain ⟨a, b, c⟩ := e
    rw [List.map_cons] at h
    have hne : ¬(a = i ∧ b = j) := by
      intro hc
      exact h (by simp [pairOf, hc.1, hc.2])
    rw [restriccionesCapacidad_cons, List.filter_cons]
    rw [show (decide ((NombreRestriccion.capacidad a b) = .capacidad i j)) = false by
      simp only [decide_eq_false_iff_not, NombreRestriccion.capacidad.injEq, not_and]
      exact fun h1 h2 => absurd ⟨h1, h2⟩ hne]
    exact ih (fun hc => h (List.mem_cons_of_mem _ hc))

theorem restriccionesCapacidad_filter_single {aristas : List (Node × Node × EdgeData)}
    {emergencias : List Emergencia} {i j : Node} {d : EdgeData}
    (hnd : (aristas.map pairOf).Nodup) (hm : (i, j, d) ∈ aristas) :
    (restriccionesCapacidad aristas emergencias).filter
      (fun c => decide (c.nombre = .capacidad i j)) =
      [⟨.capacidad i j,
        emergencias.enum.map (fun p => (p.2.velocidad_requerida, (i, j, p.1))),
        .le, d.capacity⟩] := by
  induction aristas with
  | nil => exact absurd hm (by simp)
  | cons e aristas ih =>
    obtain ⟨a, b, c⟩ := e
    rw [List.map_cons, List.nodup_cons] at hnd
    rw [restriccionesCapacidad_cons, List.filter_cons]
    rcases List.mem_cons.mp hm with heq | hmem
    · obtain ⟨rfl, rfl, rfl⟩ : i = a ∧ j = b ∧ d = c := by
        simpa [Prod.ext_iff] using heq
      rw [show (decide ((NombreRestriccion.capacidad i j) = .capacidad i j)) = true by simp]
      have htail : ((i, j) : Node × Node) ∉ aristas.map pairOf := by
        simpa [pairOf] using hnd.1
      rw [if_pos rfl, restriccionesCapacidad_filter_nil htail]
    · have hne : ¬(a = i ∧ b = j) := by
        rintro ⟨rfl, rfl⟩
        exact hnd.1 (List.mem_map.mpr ⟨(a, b, d), hmem, rfl⟩)
      rw [show (decide ((NombreRestriccion.capacidad a b) = .capacidad i j)) = false by
        simp only [decide_eq_false_iff_not, NombreRestriccion.capacidad.injEq, not_and]
        exact fun h1 h2 => absurd ⟨h1, h2⟩ hne]
      rw [if_neg (by simp)]
      exact ih hnd.2 hmem

theorem restriccionFlujoEn_nombre_no_capacidad
    (aristas : List (Node × Node × EdgeData)) (origen : Node) (k : ℕ)
    (dest nodo : Node) (i j : Node) :
    (decide ((restriccionFlujoEn aristas origen k dest nodo).nombre =
      .capacidad i j)) = false := by
  unfold restriccionFlujoEn
  by_cases h1 : nodo = origen
  · rw [if_pos h1]
    simp
  · rw [if_neg h1]
    by_cases h2 : nodo = dest
    · rw [if_pos h2]
      simp
    · rw [if_neg h2]
      simp

theorem restriccionesFlujo_filter_capacidad_nil
    {aristas : List (Node × Node × EdgeData)} {nodos : List Node} {origen : Node}
    {l : List (ℕ × Emergencia)} {i j : Node} :
    (restriccionesFlujo aristas nodos origen l).filter
      (fun c => decide (c.nombre = .capacidad i j)) = [] := by
  induction l with
  | nil => rfl
  | cons p l ih =>
    obtain ⟨k, em⟩ := p
    unfold restriccionesFlujo
    rw [List.filter_append, ih, List.append_nil]
    rw [List.filter_eq_nil_iff]
    intro c hc
    obtain ⟨nodo, _, rfl⟩ := List.mem_map.mp hc
    rw [restriccionFlujoEn_nombre_no_capacidad]
    simp

/-- C1: for every edge `(i, j)` of the prepared simple graph (pairwise
distinct ordered pairs, as produced by the simplification), the built
MILP contains exactly one constraint named `Capacidad_a{i}_{j}`, namely
`Σ_k velocidad_requerida_k · x[i,j,k] ≤ capacity(i,j)`, and that
constraint is satisfied by an assignment `x` precisely when the sum over
all emergencies `k` of `velocidad_requerida_k · x[i,j,k]` is at most the
edge's capacity. -/
theorem c1_capacidad_compartida_unica (G' : Grafo) (emergencias : List Emergencia)
    (origen : Node) (cu : CostosUsuario)
    (hnd : (G'.edges.map pairOf).Nodup)
    (i j : Node) (d : EdgeData) (hm : (i, j, d) ∈ G'.edges) :
    ((construirModelo G' emergencias origen cu).restricciones.filter
      (fun c => decide (c.nombre = .capacidad i j))) =
      [⟨.capacidad i j,
        emergencias.enum.map (fun p => (p.2.velocidad_requerida, (i, j, p.1))),
        .le, d.capacity⟩] ∧
    ∀ x : VarIdx → ℚ,
      cumpleRestriccion ⟨.capacidad i j,
        emergencias.enum.map (fun p => (p.2.velocidad_requerida, (i, j, p.1))),
        .le, d.capacity⟩ x ↔
        (emergencias.enum.map
          (fun p => p.2.velocidad_requerida * x (i, j, p.1))).sum ≤ d.capacity := by
  constructor
  · show ((restriccionesFlujo G'.edges (G'.nodes.map (fun n => n.1)) origen
        emergencias.enum ++ restriccionesCapacidad G'.edges emergencias).filter
        (fun c => decide (c.nombre = .capacidad i j))) = _
    rw [List.filter_append, restriccionesFlujo_filter_capacidad_nil,
      List.nil_append, restriccionesCapacidad_filter_single hnd hm]
  · intro x
    unfold cumpleRestriccion evalTerminos
    rw [List.map_map]
    exact Iff.rfl

/-- Witness for C1 on a concrete three-edge chain graph with one
emergency. -/
theorem c1_witness :
    ((construirModelo
        ⟨[(0, ⟨0, 0⟩), (1, ⟨0, 0⟩), (2, ⟨0, 0⟩), (3, ⟨0, 0⟩)],
          [(0, 1, ⟨1000, 80⟩), (1, 2, ⟨1000, 80⟩), (2, 3, ⟨1000, 80⟩)]⟩
        [⟨1, .grave, 75, 3⟩] 0 none).restricciones.filter
      (fun c => decide (c.nombre = .capacidad 0 1))) =
      [⟨.capacidad 0 1,
        ([⟨1, .grave, 75, 3⟩] : List Emergencia).enum.map
          (fun p => (p.2.velocidad_requerida, ((0 : Node), (1 : Node), p.1))),
        .le, (80 : ℚ)⟩] ∧
    ∀ x : VarIdx → ℚ,
      cumpleRestriccion ⟨.capacidad 0 1,
        ([⟨1, .grave, 75, 3⟩] : List Emergencia).enum.map
          (fun p => (p.2.velocidad_requerida, ((0 : Node), (1 : Node), p.1))),
        .le, (80 : ℚ)⟩ x ↔
        (([⟨1, .grave, 75, 3⟩] : List Emergencia).enum.map
          (fun p => p.2.velocidad_requerida * x (0, 1, p.1))).sum ≤ (80 : ℚ) :=
  c1_capacidad_compartida_unica _ _ 0 none (by decide) 0 1 ⟨1000, 80⟩ (by decide)

/-- Selector for the flow-conservation constraint of flow `k` at node
`v`, whatever its branch (`Flujo_Origen_k{k}_n{v}`,
`Flujo_Destino_k{k}_n{v}` or `Flujo_Conservacion_k{k}_n{v}`). -/
def esRestriccionFlujoKV (k : ℕ) (v : Node) (c : Restriccion) : Bool :=
  match c.nombre with
  | .capacidad _ _ => false
  | .flujoOrigen k' n => decide (k' = k ∧ n = v)
  | .flujoDestino k' n => decide (k' = k ∧ n = v)
  | .flujoConservacion k' n => decide (k' = k ∧ n = v)

theorem esRestriccionFlujoKV_flujoEn (aristas : List (Node × Node × EdgeData))
    (origen : Node) (k' : ℕ) (dest nodo : Node) (k : ℕ) (v : Node) :
    esRestriccionFlujoKV k v (restriccionFlujoEn aristas origen k' dest nodo) =
      decide (k' = k ∧ nodo = v) := by
  unfold restriccionFlujoEn
  by_cases h1 : nodo = origen
  · rw [if_pos h1]
    rfl
  · rw [if_neg h1]
    by_cases h2 : nodo = dest
    · rw [if_pos h2]
      rfl
    · rw [if_neg h2]
      rfl

theorem restriccionesCapacidad_filter_flujoKV_nil
    {aristas : List (Node × Node × EdgeData)} {emergencias : List Emergencia}
    {k : ℕ} {v : Node} :
    (restriccionesCapacidad aristas emergencias).filter (esRestriccionFlujoKV k v) = [] := by
  rw [List.filter_eq_nil_iff]
  intro c hc
  obtain ⟨e, _, rfl⟩ := List.mem_map.mp hc
  simp [esRestriccionFlujoKV]

theorem bloqueFlujo_filter_ne_k {aristas : List (Node × Node × EdgeData)}
    {nodos : List Node} {origen : Node} {k' : ℕ} {dest : Node} {k : ℕ} {v : Node}
    (hk : k' ≠ k) :
    ((nodos.map (restriccionFlujoEn aristas origen k' dest)).filter
      (esRestriccionFlujoKV k v)) = [] := by
  rw [List.filter_eq_nil_iff]
  intro c hc
  obtain ⟨nodo, _, rfl⟩ := List.mem_map.mp hc
  rw [esRestriccionFlujoKV_flujoEn]
  simp
  exact fun hc' => absurd hc' hk

theorem bloqueFlujo_filter_not_mem {aristas : List (Node × Node × EdgeData)}
    {nodos : List Node} {origen : Node} {k : ℕ} {dest : Node} {v : Node}
    (hv : v ∉ nodos) :
    ((nodos.map (restriccionFlujoEn aristas origen k dest)).filter
      (esRestriccionFlujoKV k v)) = [] := by
  rw [List.filter_eq_nil_iff]
  intro c hc
  obtain ⟨nodo, hnodo, rfl⟩ := List.mem_map.mp hc
  rw [esRestriccionFlujoKV_flujoEn]
  simp only [ne_eq, decide_eq_true_eq, not_and]
  rintro - rfl
  exact hv hnodo

theorem bloqueFlujo_filter_single {aristas : List (Node × Node × EdgeData)}
    {nodos : List Node} {origen : Node} {k : ℕ} {dest : Node} {v : Node}
    (hvnd : nodos.Nodup) (hv : v ∈ nodos) :
    ((nodos.map (restriccionFlujoEn aristas origen k dest)).filter
      (esRestriccionFlujoKV k v)) = [restriccionFlujoEn aristas origen k dest v] := by
  induction nodos with
  | nil => exact absurd hv (by simp)
  | cons nodo nodos ih =>
    rw [List.nodup_cons] at hvnd
    rw [List.map_cons, List.filter_cons]
    by_cases hveq : nodo = v
    · subst hveq
      rw [show esRestriccionFlujoKV k nodo (restriccionFlujoEn aristas origen k dest nodo) = true by
        rw [esRestriccionFlujoKV_flujoEn]; simp]
      rw [if_pos rfl, bloqueFlujo_filter_not_mem hvnd.1]
    · rw [show esRestriccionFlujoKV k v (restriccionFlujoEn aristas origen k dest nodo) = false by
        rw [esRestriccionFlujoKV_flujoEn]; simp [hveq]]
      rw [if_neg (by simp)]
      have hv' : v ∈ nodos := by
        rcases List.mem_cons.mp hv with hc | hc
        · exact absurd hc.symm hveq
        · exact hc
      exact ih hvnd.2 hv'

theorem restriccionesFlujo_filter_not_mem_k
    {aristas : List (Node × Node × EdgeData)} {nodos : List Node} {origen : Node}
    {l : List (ℕ × Emergencia)} {k : ℕ} {v : Node}
    (hk : (k : ℕ) ∉ l.map Prod.fst) :
    (restriccionesFlujo aristas nodos origen l).filter (esRestriccionFlujoKV k v) = [] := by
  induction l with
  | nil => rfl
  | cons p l ih =>
    obtain ⟨k', em'⟩ := p
    rw [List.map_cons] at hk
    unfold restriccionesFlujo
    rw [List.filter_append]
    rw [bloqueFlujo_filter_ne_k (fun hc => hk (by rw [hc]; exact List.mem_cons_self _ _))]
    rw [List.nil_append]
    exact ih (fun hc => hk (List.mem_cons_of_mem _ hc))

theorem restriccionesFlujo_filter_single
    {aristas : List (Node × Node × EdgeData)} {nodos : List Node} {origen : Node}
    {l : List (ℕ × Emergencia)} {k : ℕ} {em : Emergencia} {v : Node}
    (hknd : (l.map Prod.fst).Nodup) (hkin : (k, em) ∈ l)
    (hvnd : nodos.Nodup) (hv : v ∈ nodos) :
    (restriccionesFlujo aristas nodos origen l).filter (esRestriccionFlujoKV k v) =
      [restriccionFlujoEn aristas origen k em.nodo_destino v] := by
  induction l with
  | nil => exact absurd hkin (by simp)
  | cons p l ih =>
    obtain ⟨k', em'⟩ := p
    rw [List.map_cons, List.nodup_cons] at hknd
    unfold restriccionesFlujo
    rw [List.filter_append]
    by_cases hkeq : k' = k
    · subst hkeq
      have hem : em' = em := by
        rcases List.mem_cons.mp hkin with hc | hc
        · exact (by simpa [Prod.ext_iff] using hc.symm : k' = k' ∧ em' = em).2
        · exact absurd (List.mem_map.mpr ⟨(k', em), hc, rfl⟩) hknd.1
      subst hem
      rw [bloqueFlujo_filter_single hvnd hv,
        restriccionesFlujo_filter_not_mem_k hknd.1]
      rfl
    · rw [bloqueFlujo_filter_ne_k hkeq, List.nil_append]
      have hkin' : (k, em) ∈ l := by
        rcases List.mem_cons.mp hkin with hc | hc
        · exact absurd (by simpa [Prod.ext_iff] using hc : k = k' ∧ em = em').1.symm hkeq
        · exact hc
      exact ih hknd.2 hkin'

/-- C2: for every emergency `(k, em)` (an `enumerate` entry of the
emergency list) and every node `v` of the prepared graph (whose node
list, coming from a `DiGraph`, has no duplicates), the built MILP holds
exactly one flow-conservation equality for flow `k` at `v`: at the
origin, outgoing minus incoming equals `1`; at `em`'s destination
(assumed distinct from the origin), incoming minus outgoing equals `1`;
at every other node, incoming minus outgoing equals `0`. -/
theorem c2_conservacion_flujo (G' : Grafo) (emergencias : List Emergencia)
    (origen : Node) (cu : CostosUsuario) (k : ℕ) (em : Emergencia) (v : Node)
    (hvnd : (G'.nodes.map (fun n => n.1)).Nodup)
    (hkin : (k, em) ∈ emergencias.enum)
    (hv : v ∈ G'.nodes.map (fun n => n.1))
    (hdo : em.nodo_destino ≠ origen) :
    (v = origen →
      ((construirModelo G' emergencias origen cu).restricciones.filter
        (esRestriccionFlujoKV k v)) =
        [⟨.flujoOrigen k v,
          terminosDiferencia (salientes G'.edges v k) (entrantes G'.edges v k),
          .eq, 1⟩] ∧
      ∀ x : VarIdx → ℚ,
        cumpleRestriccion ⟨.flujoOrigen k v,
          terminosDiferencia (salientes G'.edges v k) (entrantes G'.edges v k),
          .eq, 1⟩ x ↔
          ((salientes G'.edges v k).map x).sum -
            ((entrantes G'.edges v k).map x).sum = 1) ∧
    (v = em.nodo_destino →
      ((construirModelo G' emergencias origen cu).restricciones.filter
        (esRestriccionFlujoKV k v)) =
        [⟨.flujoDestino k v,
          terminosDiferencia (entrantes G'.edges v k) (salientes G'.edges v k),
          .eq, 1⟩] ∧
      ∀ x : VarIdx → ℚ,
        cumpleRestriccion ⟨.flujoDestino k v,
          terminosDiferencia (entrantes G'.edges v k) (salientes G'.edges v k),
          .eq, 1⟩ x ↔
          ((entrantes G'.edges v k).map x).sum -
            ((salientes G'.edges v k).map x).sum = 1) ∧
    (v ≠ origen → v ≠ em.nodo_destino →
      ((construirModelo G' emergencias origen cu).restricciones.filter
        (esRestriccionFlujoKV k v)) =
        [⟨.flujoConservacion k v,
          terminosDiferencia (entrantes G'.edges v k) (salientes G'.edges v k),
          .eq, 0⟩] ∧
      ∀ x : VarIdx → ℚ,
        cumpleRestriccion ⟨.flujoConservacion k v,
          terminosDiferencia (entrantes G'.edges v k) (salientes G'.edges v k),
          .eq, 0⟩ x ↔
          ((entrantes G'.edges v k).map x).sum -
            ((salientes G'.edges v k).map x).sum = 0) := by
  have hknd : (emergencias.enum.map Prod.fst).Nodup := by
    rw [List.enum_map_fst]
    exact List.nodup_range _
  have hfull : ((construirModelo G' emergencias origen cu).restricciones.filter
      (esRestriccionFlujoKV k v)) =
      [restriccionFlujoEn G'.edges origen k em.nodo_destino v] := by
    show ((restriccionesFlujo G'.edges (G'.nodes.map (fun n => n.1)) origen
        emergencias.enum ++ restriccionesCapacidad G'.edges emergencias).filter
        (esRestriccionFlujoKV k v)) = _
    rw [List.filter_append, restriccionesCapacidad_filter_flujoKV_nil,
      List.append_nil, restriccionesFlujo_filter_single hknd hkin hvnd hv]
  refine ⟨?_, ?_, ?_⟩
  · intro hvo
    constructor
    · rw [hfull]
      unfold restriccionFlujoEn
      rw [if_pos hvo]
    · intro x
      unfold cumpleRestriccion
      rw [show (⟨.flujoOrigen k v,
          terminosDiferencia (salientes G'.edges v k) (entrantes G'.edges v k),
          .eq, 1⟩ : Restriccion).terminos =
        terminosDiferencia (salientes G'.edges v k) (entrantes G'.edges v k) from rfl]
      rw [evalTerminos_diferencia]
  · intro hvd
    have hno : v ≠ origen := by
      rw [hvd]
      exact hdo
    constructor
    · rw [hfull]
      unfold restriccionFlujoEn
      rw [if_neg hno, if_pos hvd]
    · intro x
      unfold cumpleRestriccion
      rw [show (⟨.flujoDestino k v,
          terminosDiferencia (entrantes G'.edges v k) (salientes G'.edges v k),
          .eq, 1⟩ : Restriccion).terminos =
        terminosDiferencia (entrantes G'.edges v k) (salientes G'.edges v k) from rfl]
      rw [evalTerminos_diferencia]
  · intro hno hnd'
    constructor
    · rw [hfull]
      unfold restriccionFlujoEn
      rw [if_neg hno, if_neg hnd']
    · intro x
      unfold cumpleRestriccion
      rw [show (⟨.flujoConservacion k v,
          terminosDiferencia (entrantes G'.edges v k) (salientes G'.edges v k),
          .eq, 0⟩ : Restriccion).terminos =
        terminosDiferencia (entrantes G'.edges v k) (salientes G'.edges v k) from rfl]
      rw [evalTerminos_diferencia]

/-- Witness for C2 on the three-edge chain with one emergency bound to
node `3`, checked at the origin node `0`. -/
theorem c2_witness :
    (((construirModelo
        ⟨[(0, ⟨0, 0⟩), (1, ⟨0, 0⟩), (2, ⟨0, 0⟩), (3, ⟨0, 0⟩)],
          [(0, 1, ⟨1000, 80⟩), (1, 2, ⟨1000, 80⟩), (2, 3, ⟨1000, 80⟩)]⟩
        [⟨1, .grave, 75, 3⟩] 0 none).restricciones.filter
        (esRestriccionFlujoKV 0 0)) =
        [⟨.flujoOrigen 0 0,
          terminosDiferencia
            (salientes [(0, 1, ⟨1000, 80⟩), (1, 2, ⟨1000, 80⟩), (2, 3, ⟨1000, 80⟩)] 0 0)
            (entrantes [(0, 1, ⟨1000, 80⟩), (1, 2, ⟨1000, 80⟩), (2, 3, ⟨1000, 80⟩)] 0 0),
          .eq, 1⟩] ∧
      ∀ x : VarIdx → ℚ,
        cumpleRestriccion ⟨.flujoOrigen 0 0,
          terminosDiferencia
            (salientes [(0, 1, ⟨1000, 80⟩), (1, 2, ⟨1000, 80⟩), (2, 3, ⟨1000, 80⟩)] 0 0)
            (entrantes [(0, 1, ⟨1000, 80⟩), (1, 2, ⟨1000, 80⟩), (2, 3, ⟨1000, 80⟩)] 0 0),
          .eq, 1⟩ x ↔
          ((salientes [(0, 1, ⟨1000, 80⟩), (1, 2, ⟨1000, 80⟩), (2, 3, ⟨1000, 80⟩)] 0 0).map x).sum -
            ((entrantes [(0, 1, ⟨1000, 80⟩), (1, 2, ⟨1000, 80⟩), (2, 3, ⟨1000, 80⟩)] 0 0).map x).sum = 1) :=
  (c2_conservacion_flujo
    ⟨[(0, ⟨0, 0⟩), (1, ⟨0, 0⟩), (2, ⟨0, 0⟩), (3, ⟨0, 0⟩)],
      [(0, 1, ⟨1000, 80⟩), (1, 2, ⟨1000, 80⟩), (2, 3, ⟨1000, 80⟩)]⟩
    [⟨1, .grave, 75, 3⟩] 0 none 0 ⟨1, .grave, 75, 3⟩ 0
    (by decide) (by decide) (by decide) (by decide)).1 rfl

theorem evalTerminos_objetivo (aristas : List (Node × Node × EdgeData))
    (cu : CostosUsuario) (x : VarIdx → ℚ) :
    ∀ l : List (ℕ × Emergencia),
      evalTerminos (terminosObjetivo aristas cu l) x =
        (l.map (fun p =>
          (aristas.map (fun e =>
            e.2.2.length / 1000 * costoKmDe cu p.2.severidad *
              x (e.1, e.2.1, p.1))).sum)).sum := by
  intro l
  induction l with
  | nil => simp [terminosObjetivo, evalTerminos]
  | cons p l ih =>
    obtain ⟨k, em⟩ := p
    unfold terminosObjetivo
    rw [evalTerminos_append, ih, List.map_cons, List.sum_cons]
    congr 1
    unfold evalTerminos
    rw [List.map_map]
    rfl

/-- C3: under every assignment of the decision variables, the objective
of the built MILP equals the sum over emergencies of the fixed cost of
their severity plus, for each emergency `k` and each edge `(i, j)` of
the prepared graph, `(length(i,j)/1000) · per_km_cost(severity_k) ·
x[i,j,k]`; and the cost lookups obey the override rule: a user-supplied
row for a severity replaces the default `COSTOS` row, and otherwise
(row absent or no user table) the default row is used. -/
theorem c3_objetivo_costos (G' : Grafo) (emergencias : List Emergencia)
    (origen : Node) (cu : CostosUsuario) (x : VarIdx → ℚ) :
    evalObjetivo (construirModelo G' emergencias origen cu) x =
      (emergencias.map (fun em => costoFijoDe cu em.severidad)).sum +
        (emergencias.enum.map (fun p =>
          (G'.edges.map (fun e =>
            e.2.2.length / 1000 * costoKmDe cu p.2.severidad *
              x (e.1, e.2.1, p.1))).sum)).sum ∧
    (∀ (m : Severidad → Option CostoUsuario) (sev : Severidad) (fila : CostoUsuario),
      m sev = some fila →
        costoFijoDe (some m) sev = fila.costo_fijo ∧
          costoKmDe (some m) sev = fila.costo_km) ∧
    (∀ (m : Severidad → Option CostoUsuario) (sev : Severidad),
      m sev = none →
        costoFijoDe (some m) sev =
            (COSTOS (PRIORIDAD_A_AMBULANCIA sev)).costo_fijo_activacion ∧
          costoKmDe (some m) sev =
            (COSTOS (PRIORIDAD_A_AMBULANCIA sev)).costo_por_km) ∧
    (∀ sev : Severidad,
      costoFijoDe none sev =
          (COSTOS (PRIORIDAD_A_AMBULANCIA sev)).costo_fijo_activacion ∧
        costoKmDe none sev =
          (COSTOS (PRIORIDAD_A_AMBULANCIA sev)).costo_por_km) := by
  refine ⟨?_, ?_, ?_, ?_⟩
  · unfold evalObjetivo construirModelo costoFijoTotal
    rw [evalTerminos_objetivo]
  · intro m sev fila hm
    simp [costoFijoDe, costoKmDe, hm]
  · intro m sev hm
    simp [costoFijoDe, costoKmDe, hm]
  · intro sev
    exact ⟨rfl, rfl⟩

/-! Unfolding equations of the route-reconstruction loop. -/

theorem reconstruirAux_dest (aristas : List (Node × Node × EdgeData)) (x : VarIdx → ℚ)
    (k : ℕ) (destino : Node) (ruta : List Node) :
    reconstruirAux aristas x k destino ruta destino = ruta := by
  rw [reconstruirAux]
  simp

theorem reconstruirAux_sin_arista (aristas : List (Node × Node × EdgeData))
    (x : VarIdx → ℚ) (k : ℕ) (destino : Node) (ruta : List Node) (cur : Node)
    (hne : cur ≠ destino) (hfind : aristaElegida aristas x k cur = none) :
    reconstruirAux aristas x k destino ruta cur = ruta := by
  rw [reconstruirAux]
  rw [if_neg hne]
  split
  · rfl
  · rename_i e he
    rw [hfind] at he
    exact absurd he (by simp)

theorem reconstruirAux_ciclo (aristas : List (Node × Node × EdgeData))
    (x : VarIdx → ℚ) (k : ℕ) (destino : Node) (ruta : List Node) (cur : Node)
    (hne : cur ≠ destino) (e : Node × Node × EdgeData)
    (hfind : aristaElegida aristas x k cur = some e) (hmem : e.2.1 ∈ ruta) :
    reconstruirAux aristas x k destino ruta cur = ruta := by
  rw [reconstruirAux]
  rw [if_neg hne]
  split
  · rfl
  · rename_i e' he'
    rw [hfind] at he'
    obtain rfl : e = e' := Option.some_inj.mp he'
    rw [dif_pos hmem]

theorem reconstruirAux_paso (aristas : List (Node × Node × EdgeData))
    (x : VarIdx → ℚ) (k : ℕ) (destino : Node) (ruta : List Node) (cur : Node)
    (hne : cur ≠ destino) (e : Node × Node × EdgeData)
    (hfind : aristaElegida aristas x k cur = some e) (hmem : e.2.1 ∉ ruta) :
    reconstruirAux aristas x k destino ruta cur =
      reconstruirAux aristas x k destino (ruta ++ [e.2.1]) e.2.1 := by
  rw [reconstruirAux]
  rw [if_neg hne]
  split
  · rename_i he
    rw [he] at hfind
    exact absurd hfind (by simp)
  · rename_i e' he'
    rw [hfind] at he'
    obtain rfl : e = e' := Option.some_inj.mp he'
    rw [dif_neg hmem]

theorem reconstruirAux_spec (aristas : List (Node × Node × EdgeData))
    (x : VarIdx → ℚ) (k : ℕ) (destino : Node) :
    ∀ (ruta : List Node) (cur : Node), ruta.getLast? = some cur →
      (reconstruirAux aristas x k destino ruta cur).head? = ruta.head? ∧
      (ruta.Nodup → (reconstruirAux aristas x k destino ruta cur).Nodup) ∧
      (List.Chain' (fun a b => ∃ d, (a, b, d) ∈ aristas ∧ (1 : ℚ)/2 < x (a, b, k)) ruta →
        List.Chain' (fun a b => ∃ d, (a, b, d) ∈ aristas ∧ (1 : ℚ)/2 < x (a, b, k))
          (reconstruirAux aristas x k destino ruta cur)) := by
  intro ruta cur
  induction ruta, cur using reconstruirAux.induct aristas x k destino with
  | case1 ruta =>
    intro hlast
    rw [reconstruirAux_dest]
    exact ⟨rfl, id, id⟩
  | case2 ruta cur hne hfind =>
    intro hlast
    rw [reconstruirAux_sin_arista aristas x k destino ruta cur hne hfind]
    exact ⟨rfl, id, id⟩
  | case3 ruta cur hne e hfind hmem =>
    intro hlast
    rw [reconstruirAux_ciclo aristas x k destino ruta cur hne e hfind hmem]
    exact ⟨rfl, id, id⟩
  | case4 ruta cur hne e hfind hmem ih =>
    intro hlast
    rw [reconstruirAux_paso aristas x k destino ruta cur hne e hfind hmem]
    have hlast' : (ruta ++ [e.2.1]).getLast? = some e.2.1 := by
      rw [List.getLast?_concat]
    obtain ⟨ihh, ihn, ihc⟩ := ih hlast'
    have hrne : ruta ≠ [] := by
      intro hc
      rw [hc] at hlast
      exact absurd hlast (by simp)
    refine ⟨?_, ?_, ?_⟩
    · rw [ihh]
      cases ruta with
      | nil => exact absurd rfl hrne
      | cons a t => simp
    · intro hnd
      apply ihn
      rw [List.nodup_append]
      refine ⟨hnd, List.nodup_singleton _, ?_⟩
      intro a ha hb
      have hab : a = e.2.1 := by simpa using hb
      exact hmem (hab ▸ ha)
    · intro hch
      apply ihc
      rw [List.chain'_append]
      refine ⟨hch, List.chain'_singleton _, ?_⟩
      intro a ha b hb
      have hac : a = cur := by
        rw [hlast] at ha
        exact (by simpa using ha : cur = a).symm
      have hbe : b = e.2.1 := (by simpa using hb : e.2.1 = b).symm
      have hpred := List.find?_some hfind
      have hcond : e.1 = cur ∧ (1 : ℚ)/2 < x (e.1, e.2.1, k) := by
        simpa using hpred
      have hmem' : e ∈ aristas := List.mem_of_find?_eq_some hfind
      refine ⟨e.2.2, ?_, ?_⟩
      · rw [hac, hbe, ← hcond.1]
        exact hmem'
      · rw [hac, hbe, ← hcond.1]
        exact hcond.2

/-- C6: for every variable assignment `x` (and every edge list, flow
index, origin and destination), `_reconstruir_ruta_flujo` — defined here
by well-founded recursion on the edge targets not yet visited, which is
exactly why the Python loop terminates — returns a route that starts at
the origin, never repeats a node, and whose consecutive node pairs are
always edges of the prepared graph whose decision variable for this flow
exceeds `0.5`. -/
theorem c6_reconstruir_ruta_invariantes (aristas : List (Node × Node × EdgeData))
    (x : VarIdx → ℚ) (k : ℕ) (origen destino : Node) :
    (reconstruirRutaFlujo aristas x k origen destino).head? = some origen ∧
    (reconstruirRutaFlujo aristas x k origen destino).Nodup ∧
    List.Chain' (fun a b => ∃ d, (a, b, d) ∈ aristas ∧ (1 : ℚ)/2 < x (a, b, k))
      (reconstruirRutaFlujo aristas x k origen destino) := by
  have h := reconstruirAux_spec aristas x k destino [origen] origen (by simp)
  unfold reconstruirRutaFlujo
  exact ⟨by rw [h.1]; rfl, h.2.1 (by simp), h.2.2 (by simp)⟩

/-! Lemmas about `_calcular_uso_aristas`. -/

theorem flujosYCarga_spec (x : VarIdx → ℚ) (i j : Node) :
    ∀ l : List (ℕ × Emergencia),
      flujosYCarga x i j l =
        ((l.filter (fun p => decide ((1 : ℚ)/2 < x (i, j, p.1)))).map
            (fun p => p.1 + 1),
          ((l.filter (fun p => decide ((1 : ℚ)/2 < x (i, j, p.1)))).map
            (fun p => p.2.velocidad_requerida)).sum) := by
  intro l
  induction l with
  | nil => rfl
  | cons p l ih =>
    obtain ⟨k, em⟩ := p
    unfold flujosYCarga
    rw [ih, List.filter_cons]
    by_cases hx : (1 : ℚ)/2 < x (i, j, k)
    · rw [if_pos hx, if_pos (by simpa using hx)]
      simp
    · rw [if_neg hx, if_neg (by simpa using hx)]

theorem calcularUsoAristas_cons (a b : Node) (c : EdgeData)
    (rest : List (Node × Node × EdgeData)) (emergencias : List Emergencia)
    (x : VarIdx → ℚ) :
    calcularUsoAristas ((a, b, c) :: rest) emergencias x =
      if (flujosYCarga x a b emergencias.enum).1 = [] then
        calcularUsoAristas rest emergencias x
      else
        ((a, b),
          ⟨(flujosYCarga x a b emergencias.enum).1.length,
            (flujosYCarga x a b emergencias.enum).1,
            (flujosYCarga x a b emergencias.enum).2, c.capacity,
            if 0 < c.capacity then
              (flujosYCarga x a b emergencias.enum).2 / c.capacity
            else 0⟩) :: calcularUsoAristas rest emergencias x := rfl

theorem mem_calcularUsoAristas {aristas : List (Node × Node × EdgeData)}
    {emergencias : List Emergencia} {x : VarIdx → ℚ} {i j : Node} {u : UsoArista} :
    ((i, j), u) ∈ calcularUsoAristas aristas emergencias x ↔
      ∃ d, (i, j, d) ∈ aristas ∧
        (flujosYCarga x i j emergencias.enum).1 ≠ [] ∧
        u = ⟨(flujosYCarga x i j emergencias.enum).1.length,
          (flujosYCarga x i j emergencias.enum).1,
          (flujosYCarga x i j emergencias.enum).2, d.capacity,
          if 0 < d.capacity then
            (flujosYCarga x i j emergencias.enum).2 / d.capacity
          else 0⟩ := by
  induction aristas with
  | nil => simp [calcularUsoAristas]
  | cons e rest ih =>
    obtain ⟨a, b, c⟩ := e
    rw [calcularUsoAristas_cons]
    by_cases hfc : (flujosYCarga x a b emergencias.enum).1 = []
    · rw [if_pos hfc, ih]
      constructor
      · rintro ⟨d, hd, hne, hu⟩
        exact ⟨d, List.mem_cons_of_mem _ hd, hne, hu⟩
      · rintro ⟨d, hd, hne, hu⟩
        rcases List.mem_cons.mp hd with hd | hd
        · obtain ⟨rfl, rfl, rfl⟩ : i = a ∧ j = b ∧ d = c := by
            simpa [Prod.ext_iff] using hd
          exact absurd hfc hne
        · exact ⟨d, hd, hne, hu⟩
    · rw [if_neg hfc, List.mem_cons, ih]
      constructor
      · rintro (heq | ⟨d, hd, hne, hu⟩)
        · obtain ⟨⟨rfl, rfl⟩, hu⟩ :
              (i = a ∧ j = b) ∧
                u = ⟨(flujosYCarga x a b emergencias.enum).1.length,
                  (flujosYCarga x a b emergencias.enum).1,
                  (flujosYCarga x a b emergencias.enum).2, c.capacity,
                  if 0 < c.capacity then
                    (flujosYCarga x a b emergencias.enum).2 / c.capacity
                  else 0⟩ := by
            simpa [Prod.ext_iff] using heq
          exact ⟨c, List.mem_cons_self _ _, hfc, hu⟩
        · exact ⟨d, List.mem_cons_of_mem _ hd, hne, hu⟩
      · rintro ⟨d, hd, hne, hu⟩
        rcases List.mem_cons.mp hd with hd | hd
        · obtain ⟨rfl, rfl, rfl⟩ : i = a ∧ j = b ∧ d = c := by
            simpa [Prod.ext_iff] using hd
          exact Or.inl (by rw [hu])
        · exact Or.inr ⟨d, hd, hne, hu⟩

/-- C10: under every variable assignment, the edge-usage map computed by
`_calcular_uso_aristas` has as keys exactly the edges of `self.aristas`
used by at least one flow (variable value above `0.5`); each entry lists
exactly the 1-based ids of the using flows, its `carga_total` is the sum
of the required speeds of exactly those flows, its `capacidad` is the
edge's capacity, and its `utilizacion` is `carga_total / capacidad`
guarded to `0` when the capacity is not strictly positive, so no
division by zero is performed. -/
theorem c10_uso_aristas_correcto (aristas : List (Node × Node × EdgeData))
    (emergencias : List Emergencia) (x : VarIdx → ℚ) :
    (∀ i j : Node,
      (∃ u, ((i, j), u) ∈ calcularUsoAristas aristas emergencias x) ↔
        ((∃ d, (i, j, d) ∈ aristas) ∧
          ∃ p ∈ emergencias.enum, (1 : ℚ)/2 < x (i, j, p.1))) ∧
    (∀ (i j : Node) (u : UsoArista),
      ((i, j), u) ∈ calcularUsoAristas aristas emergencias x →
        ∃ d, (i, j, d) ∈ aristas ∧
          u.flujos_ids =
            (emergencias.enum.filter
              (fun p => decide ((1 : ℚ)/2 < x (i, j, p.1)))).map (fun p => p.1 + 1) ∧
          u.flujos_ids ≠ [] ∧
          u.num_flujos = u.flujos_ids.length ∧
          u.carga_total =
            ((emergencias.enum.filter
              (fun p => decide ((1 : ℚ)/2 < x (i, j, p.1)))).map
                (fun p => p.2.velocidad_requerida)).sum ∧
          u.capacidad = d.capacity ∧
          u.utilizacion =
            if 0 < d.capacity then u.carga_total / d.capacity else 0) := by
  constructor
  · intro i j
    constructor
    · rintro ⟨u, hu⟩
      obtain ⟨d, hd, hne, -⟩ := mem_calcularUsoAristas.mp hu
      refine ⟨⟨d, hd⟩, ?_⟩
      rw [flujosYCarga_spec] at hne
      have hne' : (emergencias.enum.filter
          (fun p => decide ((1 : ℚ)/2 < x (i, j, p.1)))).map (fun p => p.1 + 1) ≠ [] := hne
      have hfil : (emergencias.enum.filter
          (fun p => decide ((1 : ℚ)/2 < x (i, j, p.1)))) ≠ [] := by
        intro hc
        rw [hc] at hne'
        exact hne' rfl
      obtain ⟨p, hp⟩ := List.exists_mem_of_ne_nil _ hfil
      have := List.mem_filter.mp hp
      exact ⟨p, this.1, by simpa using this.2⟩
    · rintro ⟨⟨d, hd⟩, p, hp, hx⟩
      refine ⟨_, mem_calcularUsoAristas.mpr ⟨d, hd, ?_, rfl⟩⟩
      rw [flujosYCarga_spec]
      intro hc
      have hc' : (emergencias.enum.filter
          (fun q => decide ((1 : ℚ)/2 < x (i, j, q.1)))).map (fun q => q.1 + 1) = [] := hc
      have hpm : p ∈ emergencias.enum.filter
          (fun q => decide ((1 : ℚ)/2 < x (i, j, q.1))) :=
        List.mem_filter.mpr ⟨hp, by simpa using hx⟩
      rw [List.map_eq_nil_iff] at hc'
      rw [hc'] at hpm
      exact absurd hpm (by simp)
  · intro i j u hu
    obtain ⟨d, hd, hne, hu'⟩ := mem_calcularUsoAristas.mp hu
    subst hu'
    rw [flujosYCarga_spec] at hne ⊢
    refine ⟨d, hd, rfl, hne, rfl, rfl, rfl, rfl⟩

/-- Counterexample for C7: with `c_min = 5 ≥ c_max = 3` — an invalid
range, which the claim says must fail with `InvalidRange` and assign
nothing — `asignar_capacidades_aleatorias` succeeds on a one-edge graph
and assigns the drawn capacity to the edge; the constant draw stream `4`
is a valid `random.uniform(5, 3)` stream. -/
theorem c7_counterexample :
    (5 : ℚ) ≥ 3 ∧
    drawsValidos 5 3 (fun _ => 4) ∧
    asignarCapacidadesAleatorias ⟨[(0, ⟨0, 0⟩), (1, ⟨0, 0⟩)], [(0, 1, ⟨100, 0⟩)]⟩
        5 3 (fun _ => 4) =
      Except.ok ⟨[(0, ⟨0, 0⟩), (1, ⟨0, 0⟩)], [(0, 1, ⟨100, 4⟩)]⟩ := by
  refine ⟨by norm_num, ?_, rfl⟩
  intro n
  constructor
  · rw [show min (5 : ℚ) 3 = 3 by norm_num]
    norm_num
  · rw [show max (5 : ℚ) 3 = 5 by norm_num]
    norm_num

/-- C7 (amended): `asignar_capacidades_aleatorias` performs no
validation of the capacity range: for every graph, all bounds (also when
`C_min ≥ C_max` or a bound is non-positive) and every draw stream, it
returns `ok`, keeping the node list and every edge's endpoints and
length, and setting the `n`-th edge's capacity to the `n`-th draw. -/
theorem c7_amended_sin_validacion (G : Grafo) (cMin cMax : ℚ) (draws : ℕ → ℚ) :
    ∃ G', asignarCapacidadesAleatorias G cMin cMax draws = Except.ok G' ∧
      G'.nodes = G.nodes ∧
      ∀ n : ℕ, G'.edges.get? n =
        (G.edges.get? n).map (fun e => (e.1, e.2.1, ⟨e.2.2.length, draws n⟩)) := by
  refine ⟨_, rfl, rfl, ?_⟩
  intro n
  show ((G.edges.enum.map (fun p =>
    (p.2.1, p.2.2.1, { p.2.2.2 with capacity := draws p.1 }))).get? n) = _
  rw [List.get?_map]
  cases hg : G.edges.get? n with
  | none =>
    rw [show G.edges.enum.get? n = none by
      rw [List.get?_eq_none] at hg ⊢
      simpa using hg]
    rfl
  | some e =>
    rw [show G.edges.enum.get? n = some (n, e) by
      rw [List.get?_enum, hg]
      rfl]
    rfl

/-- Counterexample for C8: on a multigraph with two parallel edges from
`0` to `1` and a valid `random.uniform(30, 100)` draw stream whose first
two draws differ (`40` then `50`), `asignar_capacidades_aleatorias`
gives the two parallel edges different capacities — it draws per edge
`(u, v, key)`, not one draw per ordered pair. -/
theorem c8_counterexample :
    drawsValidos 30 100 (fun n => if n = 0 then 40 else 50) ∧
    asignarCapacidadesAleatorias ⟨[(0, ⟨0, 0⟩), (1, ⟨0, 0⟩)],
        [(0, 1, ⟨100, 0⟩), (0, 1, ⟨200, 0⟩)]⟩ 30 100
        (fun n => if n = 0 then 40 else 50) =
      Except.ok ⟨[(0, ⟨0, 0⟩), (1, ⟨0, 0⟩)],
        [(0, 1, ⟨100, 40⟩), (0, 1, ⟨200, 50⟩)]⟩ ∧
    (40 : ℚ) ≠ 50 := by
  refine ⟨?_, rfl, by norm_num⟩
  intro n
  rw [show min (30 : ℚ) 100 = 30 by norm_num, show max (30 : ℚ) 100 = 100 by norm_num]
  by_cases h : n = 0
  · simp only [h, if_pos rfl]
    norm_num
  · simp only [if_neg h]
    norm_num

/-- C8 (amended): `asignar_capacidades_aleatorias` draws one capacity
per edge entry `(u, v, key)` in iteration order — not one per ordered
pair — so the capacities of the result are exactly the first
`len(edges)` draws in order, and parallel edges receive independent
draws. -/
theorem c8_amended_sorteo_por_arista (G : Grafo) (cMin cMax : ℚ) (draws : ℕ → ℚ) :
    ∃ G', asignarCapacidadesAleatorias G cMin cMax draws = Except.ok G' ∧
      G'.edges.map (fun e => e.2.2.capacity) = (List.range G.edges.length).map draws := by
  refine ⟨_, rfl, ?_⟩
  show ((G.edges.enum.map (fun p =>
    (p.2.1, p.2.2.1, { p.2.2.2 with capacity := draws p.1 }))).map
      (fun e => e.2.2.capacity)) = _
  rw [List.map_map]
  rw [show ((fun e : Node × Node × EdgeData => e.2.2.capacity) ∘
      (fun p : ℕ × (Node × Node × EdgeData) =>
        (p.2.1, p.2.2.1, { p.2.2.2 with capacity := draws p.1 }))) =
    (draws ∘ Prod.fst) from rfl]
  rw [← List.map_map, List.enum_map_fst]

/-- Counterexample for C5: a valid `random.sample` outcome can select
the origin.  On a one-node graph with one emergency, the candidate pool
is the whole node list `[0]` (the interior-node filter leaves too few
nodes), the selection `[0]` is a valid without-replacement sample, and
the assigned destination equals the origin `0` — the function receives
no origin and excludes nothing. -/
theorem c5_counterexample :
    ¬ (∀ (G : Grafo) (emergencias : List Emergencia) (origen : Node) (sel : List Node),
        muestraValida (nodosAUsar G emergencias) emergencias.length sel →
        ∀ em ∈ asignarEmergenciasANodos emergencias sel, em.nodo_destino ≠ origen) := by
  intro h
  have hmv : muestraValida (nodosAUsar ⟨[(0, ⟨0, 0⟩)], []⟩ [⟨1, .leve, 40, 999⟩])
      ([(⟨1, .leve, 40, 999⟩ : Emergencia)]).length [0] := by
    unfold muestraValida
    refine ⟨by decide, ?_, by decide⟩
    intro v hv
    have : v = 0 := by simpa using hv
    rw [this]
    decide
  have hmem : (⟨1, .leve, 40, 0⟩ : Emergencia) ∈
      asignarEmergenciasANodos [⟨1, .leve, 40, 999⟩] [0] := by decide
  exact h ⟨[(0, ⟨0, 0⟩)], []⟩ [⟨1, .leve, 40, 999⟩] 0 [0] hmv _ hmem rfl

/-- C5 (amended): the destinations returned by
`asignar_emergencias_a_nodos` are pairwise distinct for every valid
without-replacement sample (`random.sample` returns distinct elements),
but the origin is not excluded: the function does not receive it and a
destination may equal it. -/
theorem c5_amended_destinos_distintos (G : Grafo) (emergencias : List Emergencia)
    (sel : List Node)
    (hs : muestraValida (nodosAUsar G emergencias) emergencias.length sel) :
    ((asignarEmergenciasANodos emergencias sel).map
      (fun em => em.nodo_destino)).Nodup := by
  have hlen : sel.length = emergencias.length := hs.2.2
  have hsel : (asignarEmergenciasANodos emergencias sel).map
      (fun em => em.nodo_destino) = sel := by
    unfold asignarEmergenciasANodos
    rw [List.map_map]
    rw [show ((fun em : Emergencia => em.nodo_destino) ∘
        (fun p : Emergencia × Node => { p.1 with nodo_destino := p.2 })) =
      Prod.snd from rfl]
    exact List.map_snd_zip _ _ (le_of_eq hlen)
  rw [hsel]
  exact hs.1

/-- Witness for the amended C5 on a concrete two-node graph with one
emergency and the valid sample `[1]`. -/
theorem c5_amended_witness :
    ((asignarEmergenciasANodos [⟨1, .leve, 40, 999⟩] [1]).map
      (fun em => em.nodo_destino)).Nodup :=
  c5_amended_destinos_distintos ⟨[(0, ⟨0, 0⟩), (1, ⟨0, 0⟩)], []⟩ _ _
    (by
      unfold muestraValida
      refine ⟨by decide, ?_, by decide⟩
      intro v hv
      have : v = 1 := by simpa using hv
      rw [this]
      decide)

end Ambulancias
